import Mathlib

/-!
Verification of the string-conversion helpers of `src/str_helpers.h`
(namespace `str`): the codec functions `to_utf8` / `to_wstring` /
`to_utf8(const unsigned char*)`, the `UCharBuffer` aliasing holder, and
the raw-buffer entry points `to_icu_raw` / `to_icu`.

Strings are shallowly embedded as lists of natural-number code units
(bytes for UTF-8, 16-bit units for UTF-16/`UChar`, 32-bit units for
UTF-32).  A null-terminated C string is represented by the list of its
code units before the terminator (hence lists not containing `0`);
where a definition models the memory a pointer designates, the
terminator `0` appears explicitly at the end of the list.

The external conversion primitives (boost's `utf_to_utf`, ICU's
`u_strFromUTF8Lenient` and `u_strFromUTF32`) are not part of this
repository; they are modelled from the spec's stated collaborator
contracts, each in a definition whose doc comment says so.
-/

set_option maxRecDepth 8000

namespace StrHelpers

/-- The platform-dependent width of `wchar_t` (`SIZEOF_WCHAR_T`): 2 or 4
bytes, fixed at compile time. -/
inductive WCharWidth where
  | w2 : WCharWidth
  | w4 : WCharWidth
deriving DecidableEq, Repr

/-- A Unicode scalar value: a code point that is neither a surrogate
half nor beyond U+10FFFF. -/
def ValidScalar (c : Nat) : Prop := c < 0x110000 ∧ ¬(0xD800 ≤ c ∧ c < 0xE000)

instance (c : Nat) : Decidable (ValidScalar c) := by unfold ValidScalar; infer_instance

/-- UTF-8 encoding of one Unicode scalar value. -/
def encodeChar8 (c : Nat) : List Nat :=
  if c < 0x80 then [c]
  else if c < 0x800 then [0xC0 + c / 64, 0x80 + c % 64]
  else if c < 0x10000 then [0xE0 + c / 4096, 0x80 + (c / 64) % 64, 0x80 + c % 64]
  else [0xF0 + c / 0x40000, 0x80 + (c / 4096) % 64, 0x80 + (c / 64) % 64, 0x80 + c % 64]

/-- UTF-8 encoding of a sequence of scalar values. -/
def encodeUtf8 : List Nat → List Nat
  | [] => []
  | c :: cs => encodeChar8 c ++ encodeUtf8 cs

/-- UTF-16 encoding of one Unicode scalar value (one unit in the BMP, a
surrogate pair above it). -/
def encodeChar16 (c : Nat) : List Nat :=
  if c < 0x10000 then [c]
  else [0xD800 + (c - 0x10000) / 0x400, 0xDC00 + (c - 0x10000) % 0x400]

/-- UTF-16 encoding of a sequence of scalar values. -/
def encodeUtf16 : List Nat → List Nat
  | [] => []
  | c :: cs => encodeChar16 c ++ encodeUtf16 cs

/-- UTF-32 encoding of a sequence of scalar values: one unit per scalar. -/
def encodeUtf32 : List Nat → List Nat := fun cs => cs

/-- One step of strict UTF-8 decoding: given the first byte `b` and the
remaining bytes, either the decoded scalar value together with the bytes
after its encoding, or `none` on any malformed sequence (truncation, bad
lead or continuation byte, overlong form, surrogate, or value beyond
U+10FFFF). -/
def utf8Dec1 (b : Nat) (rest : List Nat) : Option (Nat × List Nat) :=
  if b < 0x80 then some (b, rest)
  else if b < 0xC2 then none
  else if b < 0xE0 then
    match rest with
    | b1 :: rest2 =>
      if 0x80 ≤ b1 ∧ b1 < 0xC0 then some ((b - 0xC0) * 64 + (b1 - 0x80), rest2) else none
    | [] => none
  else if b < 0xF0 then
    match rest with
    | b1 :: b2 :: rest2 =>
      if 0x80 ≤ b1 ∧ b1 < 0xC0 ∧ 0x80 ≤ b2 ∧ b2 < 0xC0 then
        let c := (b - 0xE0) * 4096 + (b1 - 0x80) * 64 + (b2 - 0x80)
        if c < 0x800 ∨ (0xD800 ≤ c ∧ c < 0xE000) then none else some (c, rest2)
      else none
    | _ => none
  else if b < 0xF5 then
    match rest with
    | b1 :: b2 :: b3 :: rest2 =>
      if 0x80 ≤ b1 ∧ b1 < 0xC0 ∧ 0x80 ≤ b2 ∧ b2 < 0xC0 ∧ 0x80 ≤ b3 ∧ b3 < 0xC0 then
        let c := (b - 0xF0) * 0x40000 + (b1 - 0x80) * 4096 + (b2 - 0x80) * 64 + (b3 - 0x80)
        if c < 0x10000 ∨ 0x10FFFF < c then none else some (c, rest2)
      else none
    | _ => none
  else none

theorem utf8Dec1_len {b : Nat} {rest : List Nat} {p : Nat × List Nat}
    (h : utf8Dec1 b rest = some p) : p.2.length ≤ rest.length := by
  unfold utf8Dec1 at h
  simp only [] at h
  repeat' split at h
  all_goals (try cases h)
  all_goals simp
  all_goals omega

/-- Strict UTF-8 decoding to scalar values; fails on any malformed byte
sequence. -/
def decodeUtf8 (l : List Nat) : Except Unit (List Nat) :=
  match l with
  | [] => .ok []
  | b :: rest =>
    match h : utf8Dec1 b rest with
    | none => .error ()
    | some p => (decodeUtf8 p.2).map (p.1 :: ·)
termination_by l.length
decreasing_by have := utf8Dec1_len h; simp; omega

/-- Strict UTF-16 decoding to scalar values; fails on an unpaired
surrogate half or a unit beyond 16 bits. -/
def decodeUtf16 : List Nat → Except Unit (List Nat)
  | [] => .ok []
  | u :: rest =>
    if u < 0xD800 then (decodeUtf16 rest).map (u :: ·)
    else if u < 0xDC00 then
      match rest with
      | v :: rest2 =>
        if 0xDC00 ≤ v ∧ v < 0xE000 then
          (decodeUtf16 rest2).map ((0x10000 + (u - 0xD800) * 0x400 + (v - 0xDC00)) :: ·)
        else .error ()
      | [] => .error ()
    else if u < 0xE000 then .error ()
    else if u < 0x10000 then (decodeUtf16 rest).map (u :: ·)
    else .error ()

/-- Strict UTF-32 decoding to scalar values; fails on a unit that is not
a Unicode scalar value. -/
def decodeUtf32 : List Nat → Except Unit (List Nat)
  | [] => .ok []
  | c :: rest =>
    if ValidScalar c then (decodeUtf32 rest).map (c :: ·) else .error ()

/-- Decoding of the platform wide-character encoding: UTF-16 when
`wchar_t` is 2 bytes, UTF-32 when it is 4. -/
def decodeWide : WCharWidth → List Nat → Except Unit (List Nat)
  | .w2 => decodeUtf16
  | .w4 => decodeUtf32

/-- Encoding into the platform wide-character encoding. -/
def encodeWide : WCharWidth → List Nat → List Nat
  | .w2 => encodeUtf16
  | .w4 => encodeUtf32

/-- Modelled from the spec: boost's `utf_to_utf<char>` on a wide string,
the strict byte-encoding transcoder consumed by `to_utf8` — decode the
wide input to code points, re-encode as UTF-8, failing on malformed
input. -/
def utf_to_utf_char (w : WCharWidth) (s : List Nat) : Except Unit (List Nat) :=
  (decodeWide w s).map encodeUtf8

/-- Modelled from the spec: boost's `utf_to_utf<wchar_t>` on a UTF-8
string, the strict byte-encoding transcoder consumed by `to_wstring` —
decode the UTF-8 input to code points, re-encode in the wide encoding,
failing on malformed input. -/
def utf_to_utf_wchar (w : WCharWidth) (s : List Nat) : Except Unit (List Nat) :=
  (decodeUtf8 s).map (encodeWide w)

/-- Model of `str::to_utf8(const std::wstring&)` / `to_utf8(const wchar_t*)`:
delegates to `boost::locale::conv::utf_to_utf<char>`. -/
def to_utf8 (w : WCharWidth) (s : List Nat) : Except Unit (List Nat) :=
  utf_to_utf_char w s

/-- Model of `str::to_utf8(const unsigned char*)`: wraps the bytes in a
`std::string` verbatim via `reinterpret_cast`, with no transcoding. -/
def to_utf8_uchar (s : List Nat) : List Nat := s

/-- Model of `str::to_wstring(const std::string&)` / `to_wstring(const char*)`:
delegates to `boost::locale::conv::utf_to_utf<wchar_t>`. -/
def to_wstring (w : WCharWidth) (s : List Nat) : Except Unit (List Nat) :=
  utf_to_utf_wchar w s

/-- Modelled from the spec: the lenient UTF-8→UTF-16 transform behind
ICU's `u_strFromUTF8Lenient` — it never fails, substituting U+FFFD for
each malformed byte rather than propagating an error; scalar values
above the BMP become surrogate pairs. -/
def lenientUtf8ToUtf16 (l : List Nat) : List Nat :=
  match l with
  | [] => []
  | b :: rest =>
    match h : utf8Dec1 b rest with
    | some p => encodeChar16 p.1 ++ lenientUtf8ToUtf16 p.2
    | none => 0xFFFD :: lenientUtf8ToUtf16 rest
termination_by l.length
decreasing_by
  · have := utf8Dec1_len h; simp; omega
  · simp

/-- Modelled from the spec: the measuring call
`u_strFromUTF8Lenient(nullptr, 0, &destLen, src, -1, &err)` — the
required destination length in UTF-16 code units, reported through
`destLen`. -/
def uStrFromUTF8LenientMeasure (src : List Nat) : Nat :=
  (lenientUtf8ToUtf16 src).length

/-- Modelled from the spec: the writing call
`u_strFromUTF8Lenient(dest, destCapacity, nullptr, src, -1, &err)` —
succeeds when the capacity holds the converted units, appending the
null terminator when a slot remains for it; reports a buffer-overflow
failure otherwise. -/
def uStrFromUTF8LenientWrite (destCapacity : Int) (src : List Nat) :
    Except Unit (List Nat) :=
  let out := lenientUtf8ToUtf16 src
  if (out.length : Int) < destCapacity then .ok (out ++ [0])
  else if (out.length : Int) = destCapacity then .ok out
  else .error ()

/-- Modelled from the spec: the strict UTF-32→UTF-16 transcoding stage
behind ICU's `u_strFromUTF32` — the UTF-16 units of the longest valid
initial segment of the input, paired with whether an invalid code unit
was encountered (the transcoder's failure). -/
def utf32ToUtf16Pieces : List Nat → List Nat × Bool
  | [] => ([], false)
  | c :: rest =>
    if ValidScalar c then
      let p := utf32ToUtf16Pieces rest
      (encodeChar16 c ++ p.1, p.2)
    else ([], true)

/-- Modelled from the spec: the measuring call
`u_strFromUTF32(nullptr, 0, &destLen, src, -1, &err)` — the length in
UTF-16 code units of what the transcoder converts before any failure. -/
def uStrFromUTF32Measure (src : List Nat) : Nat :=
  (utf32ToUtf16Pieces src).1.length

/-- Modelled from the spec: the writing call
`u_strFromUTF32(dest, destCapacity, nullptr, src, -1, &err)` — fails on
an invalid input unit or on insufficient capacity, otherwise writes the
converted units and the null terminator when a slot remains for it. -/
def uStrFromUTF32Write (destCapacity : Int) (src : List Nat) :
    Except Unit (List Nat) :=
  let p := utf32ToUtf16Pieces src
  if p.2 then .error ()
  else if (p.1.length : Int) < destCapacity then .ok (p.1 ++ [0])
  else if (p.1.length : Int) = destCapacity then .ok p.1
  else .error ()

/-- Model of `str::UCharBuffer`: a holder for a possibly non-owned,
null-terminated `UChar*` string.  `m_data` is the code-unit content of
the memory the `UChar*` member designates (`[]` models a null
pointer). -/
structure UCharBuffer where
  m_owned : Bool
  m_data : List Nat
  m_capacity : Int
deriving DecidableEq, Repr

namespace UCharBuffer

/-- Factory `UCharBuffer::owned(length)`: allocates `length + 1` code units
(uninitialised in C++, modelled as zeros) and records capacity
`length + 1`. -/
def owned (length : Nat) : UCharBuffer :=
  ⟨true, List.replicate (length + 1) 0, (length : Int) + 1⟩

/-- Factory `UCharBuffer::non_owned(data)`: aliases caller-owned memory, with
the `-1` capacity sentinel. -/
def non_owned (data : List Nat) : UCharBuffer :=
  ⟨false, data, -1⟩

/-- Factory `UCharBuffer::null()`: the non-owned holder over the static
single-null-code-unit buffer, with capacity `0`. -/
def null : UCharBuffer :=
  ⟨false, [0], 0⟩

/-- Accessor `UCharBuffer::capacity()`: returns the stored `m_capacity` field. -/
def capacity (b : UCharBuffer) : Int := b.m_capacity

/-- The move constructor `UCharBuffer(UCharBuffer&&)`: the new holder
takes the source's fields, and `std::exchange` resets the source to
not-owned, null data, zero capacity.  Returns (new holder, moved-from
holder). -/
def moveConstruct (other : UCharBuffer) : UCharBuffer × UCharBuffer :=
  (⟨other.m_owned, other.m_data, other.m_capacity⟩, ⟨false, [], 0⟩)

/-- The destructor `~UCharBuffer()`: releases the buffer exactly when
`m_owned` holds. -/
def destructorReleases (b : UCharBuffer) : Bool := b.m_owned

end UCharBuffer

/-- Model of `str::to_icu_raw(const char*)`: measure with the lenient transform,
return the empty singleton on zero length, otherwise allocate an owned
buffer, re-run the transform into it, and fall back to the empty
singleton if that write fails. -/
def to_icu_raw_utf8 (str : List Nat) : UCharBuffer :=
  let destLen := uStrFromUTF8LenientMeasure str
  if destLen = 0 then UCharBuffer.null
  else
    let buf := UCharBuffer.owned destLen
    match uStrFromUTF8LenientWrite buf.capacity str with
    | .error _ => UCharBuffer.null
    | .ok written => { buf with m_data := written }

/-- The `SIZEOF_WCHAR_T == 4` branch of `str::to_icu_raw(const
wchar_t*)`: measure with `u_strFromUTF32`, return the empty singleton on
zero length, otherwise allocate, transcode, and fall back to the empty
singleton on failure. -/
def to_icu_raw_wide32 (str : List Nat) : UCharBuffer :=
  let destLen := uStrFromUTF32Measure str
  if destLen = 0 then UCharBuffer.null
  else
    let buf := UCharBuffer.owned destLen
    match uStrFromUTF32Write buf.capacity str with
    | .error _ => UCharBuffer.null
    | .ok written => { buf with m_data := written }

/-- Model of `str::to_icu_raw(const wchar_t*)`: on a 16-bit `wchar_t` platform, a
non-owned alias of the source's own null-terminated storage; on a 32-bit
platform, the measure/allocate/transcode/fallback sequence. -/
def to_icu_raw_wide (w : WCharWidth) (str : List Nat) : UCharBuffer :=
  match w with
  | .w2 => UCharBuffer.non_owned (str ++ [0])
  | .w4 => to_icu_raw_wide32 str

/-- The `SIZEOF_WCHAR_T == 2` branch of `str::to_icu(const
std::wstring&)`: the read-only aliasing `icu::UnicodeString`
constructor — the view's code units are the source's own, no copy. -/
def to_icu_wide16 (str : List Nat) : List Nat := str

/-- A valid null-terminated `UChar` buffer: some code units free of
interior nulls, followed by the terminating null code unit. -/
def NullTerminated (l : List Nat) : Prop := ∃ u, l = u ++ [0] ∧ 0 ∉ u

/-- Modelled from the spec: the copying wide-to-UTF-16 conversion this
layer's zero-copy view is compared against — transcode the wide input
through code points into UTF-16 code units, failing on malformed
input. -/
def wideToUtf16Copy (w : WCharWidth) (s : List Nat) : Except Unit (List Nat) :=
  (decodeWide w s).map encodeUtf16

/-! ### Generic helpers -/

theorem exceptMapOk {ε α β : Type} {f : α → β} {x : Except ε α} {b : β} :
    x.map f = .ok b ↔ ∃ a, x = .ok a ∧ f a = b := by
  cases x <;> simp [Except.map]

/-! ### UTF-16 step equations -/

theorem d16_nil : decodeUtf16 [] = .ok [] := rfl

theorem d16_low {u : Nat} (h : u < 0xD800) (r : List Nat) :
    decodeUtf16 (u :: r) = (decodeUtf16 r).map (u :: ·) := by
  rw [decodeUtf16.eq_def]; simp [h]

theorem d16_high {u : Nat} (h1 : 0xE000 ≤ u) (h2 : u < 0x10000) (r : List Nat) :
    decodeUtf16 (u :: r) = (decodeUtf16 r).map (u :: ·) := by
  rw [decodeUtf16.eq_def]
  simp [show ¬ u < 0xD800 by omega, show ¬ u < 0xDC00 by omega,
    show ¬ u < 0xE000 by omega, h2]

theorem d16_pair {u v : Nat} (h1 : 0xD800 ≤ u) (h2 : u < 0xDC00) (h3 : 0xDC00 ≤ v)
    (h4 : v < 0xE000) (r : List Nat) :
    decodeUtf16 (u :: v :: r) =
      (decodeUtf16 r).map ((0x10000 + (u - 0xD800) * 0x400 + (v - 0xDC00)) :: ·) := by
  rw [decodeUtf16.eq_def]
  simp [show ¬ u < 0xD800 by omega, h2, h3, h4]

theorem d16_pairBad {u v : Nat} (h1 : 0xD800 ≤ u) (h2 : u < 0xDC00)
    (h5 : ¬(0xDC00 ≤ v ∧ v < 0xE000)) (r : List Nat) :
    decodeUtf16 (u :: v :: r) = .error () := by
  rw [decodeUtf16.eq_def]
  simp [show ¬ u < 0xD800 by omega, h2, h5]

theorem d16_lone {u : Nat} (h1 : 0xD800 ≤ u) (h2 : u < 0xDC00) :
    decodeUtf16 [u] = .error () := by
  rw [decodeUtf16.eq_def]
  simp [show ¬ u < 0xD800 by omega, h2]

theorem d16_lowSur {u : Nat} (h1 : 0xDC00 ≤ u) (h2 : u < 0xE000) (r : List Nat) :
    decodeUtf16 (u :: r) = .error () := by
  rw [decodeUtf16.eq_def]
  simp [show ¬ u < 0xD800 by omega, show ¬ u < 0xDC00 by omega, h2]

theorem d16_big {u : Nat} (h1 : 0x10000 ≤ u) (r : List Nat) :
    decodeUtf16 (u :: r) = .error () := by
  rw [decodeUtf16.eq_def]
  simp [show ¬ u < 0xD800 by omega, show ¬ u < 0xDC00 by omega,
    show ¬ u < 0xE000 by omega, show ¬ u < 0x10000 by omega]

theorem encodeChar16_bmp {c : Nat} (h : c < 0x10000) : encodeChar16 c = [c] := by
  simp [encodeChar16, h]

theorem encodeChar16_sup {c : Nat} (h : ¬ c < 0x10000) :
    encodeChar16 c = [0xD800 + (c - 0x10000) / 0x400, 0xDC00 + (c - 0x10000) % 0x400] := by
  simp [encodeChar16, h]

theorem encodeUtf16_cons (c : Nat) (cs : List Nat) :
    encodeUtf16 (c :: cs) = encodeChar16 c ++ encodeUtf16 cs := rfl

/-! ### UTF-16 round-trip lemmas -/

theorem decodeUtf16_valid {l cps : List Nat} (h : decodeUtf16 l = .ok cps) :
    ∀ c ∈ cps, ValidScalar c := by
  induction l using decodeUtf16.induct generalizing cps with
  | case1 => rw [d16_nil] at h; cases h; simp
  | case2 c cs hc ih =>
    rw [d16_low hc] at h
    obtain ⟨tl, htl, rfl⟩ := exceptMapOk.mp h
    intro x hx
    cases List.mem_cons.mp hx with
    | inl hxe => rw [hxe]; exact ⟨by omega, by omega⟩
    | inr hxm => exact ih htl x hxm
  | case3 c hc1 hc2 b1 rest2 hb ih =>
    rw [d16_pair (by omega) hc2 hb.1 hb.2] at h
    obtain ⟨tl, htl, rfl⟩ := exceptMapOk.mp h
    intro x hx
    cases List.mem_cons.mp hx with
    | inl hxe => rw [hxe]; exact ⟨by omega, by omega⟩
    | inr hxm => exact ih htl x hxm
  | case4 c hc1 hc2 b1 rest2 hb =>
    rw [d16_pairBad (by omega) hc2 hb] at h; cases h
  | case5 c hc1 hc2 => rw [d16_lone (by omega) hc2] at h; cases h
  | case6 c cs hc1 hc2 hc3 => rw [d16_lowSur (by omega) hc3] at h; cases h
  | case7 c cs hc1 hc2 hc3 hc4 ih =>
    rw [d16_high (by omega) hc4] at h
    obtain ⟨tl, htl, rfl⟩ := exceptMapOk.mp h
    intro x hx
    cases List.mem_cons.mp hx with
    | inl hxe => rw [hxe]; exact ⟨by omega, by omega⟩
    | inr hxm => exact ih htl x hxm
  | case8 c cs hc1 hc2 hc3 hc4 => rw [d16_big (by omega)] at h; cases h

theorem encodeUtf16_decodeUtf16 {l cps : List Nat} (h : decodeUtf16 l = .ok cps) :
    encodeUtf16 cps = l := by
  induction l using decodeUtf16.induct generalizing cps with
  | case1 => rw [d16_nil] at h; cases h; rfl
  | case2 c cs hc ih =>
    rw [d16_low hc] at h
    obtain ⟨tl, htl, rfl⟩ := exceptMapOk.mp h
    rw [encodeUtf16_cons, encodeChar16_bmp (by omega), ih htl]
    rfl
  | case3 c hc1 hc2 b1 rest2 hb ih =>
    rw [d16_pair (by omega) hc2 hb.1 hb.2] at h
    obtain ⟨tl, htl, rfl⟩ := exceptMapOk.mp h
    rw [encodeUtf16_cons, encodeChar16_sup (by omega), ih htl]
    have e1 : 0xD800 + (0x10000 + (c - 0xD800) * 0x400 + (b1 - 0xDC00) - 0x10000) / 0x400 = c := by
      omega
    have e2 : 0xDC00 + (0x10000 + (c - 0xD800) * 0x400 + (b1 - 0xDC00) - 0x10000) % 0x400 = b1 := by
      omega
    rw [e1, e2]
    rfl
  | case4 c hc1 hc2 b1 rest2 hb =>
    rw [d16_pairBad (by omega) hc2 hb] at h; cases h
  | case5 c hc1 hc2 => rw [d16_lone (by omega) hc2] at h; cases h
  | case6 c cs hc1 hc2 hc3 => rw [d16_lowSur (by omega) hc3] at h; cases h
  | case7 c cs hc1 hc2 hc3 hc4 ih =>
    rw [d16_high (by omega) hc4] at h
    obtain ⟨tl, htl, rfl⟩ := exceptMapOk.mp h
    rw [encodeUtf16_cons, encodeChar16_bmp (by omega), ih htl]
    rfl
  | case8 c cs hc1 hc2 hc3 hc4 => rw [d16_big (by omega)] at h; cases h

theorem decodeUtf16_encodeChar16 {c : Nat} (h : ValidScalar c) (r : List Nat) :
    decodeUtf16 (encodeChar16 c ++ r) = (decodeUtf16 r).map (c :: ·) := by
  obtain ⟨h1, h2⟩ := h
  by_cases hb : c < 0x10000
  · rw [encodeChar16_bmp hb]
    by_cases hd : c < 0xD800
    · exact d16_low hd r
    · exact d16_high (by omega) hb r
  · rw [encodeChar16_sup hb]
    have hle : c ≤ 0x10FFFF := by omega
    rw [List.cons_append, List.cons_append, List.nil_append,
      d16_pair (by omega) (by omega) (by omega) (by omega)]
    have e : 0x10000 + (0xD800 + (c - 0x10000) / 0x400 - 0xD800) * 0x400 +
        (0xDC00 + (c - 0x10000) % 0x400 - 0xDC00) = c := by omega
    rw [e]

theorem decodeUtf16_encodeUtf16 {cps : List Nat} (h : ∀ c ∈ cps, ValidScalar c) :
    decodeUtf16 (encodeUtf16 cps) = .ok cps := by
  induction cps with
  | nil => rfl
  | cons c cs ih =>
    rw [encodeUtf16_cons, decodeUtf16_encodeChar16 (h c (List.mem_cons_self c cs)),
      ih (fun x hx => h x (List.mem_cons_of_mem c hx))]
    rfl

/-! ### UTF-8 encoder step equations -/

theorem e8_one {c : Nat} (h : c < 0x80) : encodeChar8 c = [c] := by
  simp [encodeChar8, h]

theorem e8_two {c : Nat} (h1 : 0x80 ≤ c) (h2 : c < 0x800) :
    encodeChar8 c = [0xC0 + c / 64, 0x80 + c % 64] := by
  simp [encodeChar8, show ¬ c < 0x80 by omega, h2]

theorem e8_three {c : Nat} (h1 : 0x800 ≤ c) (h2 : c < 0x10000) :
    encodeChar8 c = [0xE0 + c / 4096, 0x80 + (c / 64) % 64, 0x80 + c % 64] := by
  simp [encodeChar8, show ¬ c < 0x80 by omega, show ¬ c < 0x800 by omega, h2]

theorem e8_four {c : Nat} (h1 : 0x10000 ≤ c) :
    encodeChar8 c =
      [0xF0 + c / 0x40000, 0x80 + (c / 4096) % 64, 0x80 + (c / 64) % 64, 0x80 + c % 64] := by
  simp [encodeChar8, show ¬ c < 0x80 by omega, show ¬ c < 0x800 by omega,
    show ¬ c < 0x10000 by omega]

theorem encodeUtf8_cons (c : Nat) (cs : List Nat) :
    encodeUtf8 (c :: cs) = encodeChar8 c ++ encodeUtf8 cs := rfl

/-! ### UTF-8 one-step lemmas -/

theorem utf8Dec1_sound {b : Nat} {rest : List Nat} {p : Nat × List Nat}
    (h : utf8Dec1 b rest = some p) :
    ∃ k, rest = k ++ p.2 ∧ encodeChar8 p.1 = b :: k ∧ ValidScalar p.1 ∧ (p.1 = 0 → b = 0) := by
  unfold utf8Dec1 at h
  simp only [] at h
  repeat' split at h
  all_goals (cases h)
  · exact ⟨[], by simp, by rw [e8_one (by omega)], ⟨by omega, by omega⟩, fun hh => hh⟩
  · rename_i b1 rest2 hcont
    refine ⟨[b1], by simp, ?_, ⟨by omega, by omega⟩, by omega⟩
    rw [e8_two (by omega) (by omega)]
    simp only [List.cons.injEq, and_true]
    exact ⟨by omega, by omega⟩
  · rename_i b1 b2 rest2 hcont hcp
    refine ⟨[b1, b2], by simp, ?_, ⟨by omega, by omega⟩, by omega⟩
    rw [e8_three (by omega) (by omega)]
    simp only [List.cons.injEq, and_true]
    exact ⟨by omega, by omega, by omega⟩
  · rename_i b1 b2 b3 rest2 hcont hcp
    refine ⟨[b1, b2, b3], by simp, ?_, ⟨by omega, by omega⟩, by omega⟩
    rw [e8_four (by omega)]
    simp only [List.cons.injEq, and_true]
    exact ⟨by omega, by omega, by omega, by omega⟩

theorem utf8Dec1_encodeChar8 {c : Nat} (h : ValidScalar c) (r : List Nat) :
    ∃ b k, encodeChar8 c = b :: k ∧ utf8Dec1 b (k ++ r) = some (c, r) := by
  obtain ⟨h1, h2⟩ := h
  by_cases ha : c < 0x80
  · exact ⟨c, [], e8_one ha, by simp [utf8Dec1, ha]⟩
  · by_cases hb : c < 0x800
    · refine ⟨0xC0 + c / 64, [0x80 + c % 64], e8_two (by omega) hb, ?_⟩
      simp [utf8Dec1, show ¬ (0xC0 + c / 64 < 0x80) by omega,
        show ¬ (0xC0 + c / 64 < 0xC2) by omega, show 0xC0 + c / 64 < 0xE0 by omega,
        show 0x80 ≤ 0x80 + c % 64 by omega, show 0x80 + c % 64 < 0xC0 by omega]
      omega
    · by_cases hc : c < 0x10000
      · refine ⟨0xE0 + c / 4096, [0x80 + (c / 64) % 64, 0x80 + c % 64],
          e8_three (by omega) hc, ?_⟩
        simp [utf8Dec1, show ¬ (0xE0 + c / 4096 < 0x80) by omega,
          show ¬ (0xE0 + c / 4096 < 0xC2) by omega, show ¬ (0xE0 + c / 4096 < 0xE0) by omega,
          show 0xE0 + c / 4096 < 0xF0 by omega,
          show 0x80 ≤ 0x80 + (c / 64) % 64 by omega, show 0x80 + (c / 64) % 64 < 0xC0 by omega,
          show 0x80 ≤ 0x80 + c % 64 by omega, show 0x80 + c % 64 < 0xC0 by omega]
        omega
      · refine ⟨0xF0 + c / 0x40000,
          [0x80 + (c / 4096) % 64, 0x80 + (c / 64) % 64, 0x80 + c % 64], e8_four (by omega), ?_⟩
        simp [utf8Dec1, show ¬ (0xF0 + c / 0x40000 < 0x80) by omega,
          show ¬ (0xF0 + c / 0x40000 < 0xC2) by omega,
          show ¬ (0xF0 + c / 0x40000 < 0xE0) by omega,
          show ¬ (0xF0 + c / 0x40000 < 0xF0) by omega,
          show 0xF0 + c / 0x40000 < 0xF5 by omega,
          show 0x80 ≤ 0x80 + (c / 4096) % 64 by omega,
          show 0x80 + (c / 4096) % 64 < 0xC0 by omega,
          show 0x80 ≤ 0x80 + (c / 64) % 64 by omega, show 0x80 + (c / 64) % 64 < 0xC0 by omega,
          show 0x80 ≤ 0x80 + c % 64 by omega, show 0x80 + c % 64 < 0xC0 by omega]
        omega

theorem dec8_nil : decodeUtf8 [] = .ok [] := by rw [decodeUtf8]

theorem dec8_some {b : Nat} {rest : List Nat} {p : Nat × List Nat}
    (h : utf8Dec1 b rest = some p) :
    decodeUtf8 (b :: rest) = (decodeUtf8 p.2).map (p.1 :: ·) := by
  rw [decodeUtf8]
  split
  · rename_i hn; rw [h] at hn; cases hn
  · rename_i q hq; rw [h] at hq; cases hq; rfl

theorem dec8_none {b : Nat} {rest : List Nat}
    (h : utf8Dec1 b rest = none) :
    decodeUtf8 (b :: rest) = .error () := by
  rw [decodeUtf8]
  split
  · rfl
  · rename_i q hq; rw [h] at hq; cases hq

theorem len8_nil : lenientUtf8ToUtf16 [] = [] := by rw [lenientUtf8ToUtf16]

theorem len8_some {b : Nat} {rest : List Nat} {p : Nat × List Nat}
    (h : utf8Dec1 b rest = some p) :
    lenientUtf8ToUtf16 (b :: rest) = encodeChar16 p.1 ++ lenientUtf8ToUtf16 p.2 := by
  rw [lenientUtf8ToUtf16]
  split
  · rename_i q hq; rw [h] at hq; cases hq; rfl
  · rename_i hn; rw [h] at hn; cases hn

theorem len8_none {b : Nat} {rest : List Nat}
    (h : utf8Dec1 b rest = none) :
    lenientUtf8ToUtf16 (b :: rest) = 0xFFFD :: lenientUtf8ToUtf16 rest := by
  rw [lenientUtf8ToUtf16]
  split
  · rename_i q hq; rw [h] at hq; cases hq
  · rfl

/-! ### UTF-8 round-trip lemmas -/

theorem decodeUtf8_valid {l cps : List Nat} (h : decodeUtf8 l = .ok cps) :
    ∀ c ∈ cps, ValidScalar c := by
  induction l using decodeUtf8.induct generalizing cps with
  | case1 => rw [dec8_nil] at h; cases h; simp
  | case2 b rest hn => rw [dec8_none hn] at h; cases h
  | case3 b rest p hs ih =>
    rw [dec8_some hs] at h
    obtain ⟨tl, htl, rfl⟩ := exceptMapOk.mp h
    obtain ⟨k, hk, he, hv, hz⟩ := utf8Dec1_sound hs
    intro x hx
    cases List.mem_cons.mp hx with
    | inl hxe => rw [hxe]; exact hv
    | inr hxm => exact ih htl x hxm

theorem encodeUtf8_decodeUtf8 {l cps : List Nat} (h : decodeUtf8 l = .ok cps) :
    encodeUtf8 cps = l := by
  induction l using decodeUtf8.induct generalizing cps with
  | case1 => rw [dec8_nil] at h; cases h; rfl
  | case2 b rest hn => rw [dec8_none hn] at h; cases h
  | case3 b rest p hs ih =>
    rw [dec8_some hs] at h
    obtain ⟨tl, htl, rfl⟩ := exceptMapOk.mp h
    obtain ⟨k, hk, he, hv, hz⟩ := utf8Dec1_sound hs
    rw [encodeUtf8_cons, he, ih htl, hk]
    simp

theorem decodeUtf8_encodeChar8 {c : Nat} (h : ValidScalar c) (r : List Nat) :
    decodeUtf8 (encodeChar8 c ++ r) = (decodeUtf8 r).map (c :: ·) := by
  obtain ⟨b, k, he, hd⟩ := utf8Dec1_encodeChar8 h r
  rw [he, List.cons_append, dec8_some hd]

theorem decodeUtf8_encodeUtf8 {cps : List Nat} (h : ∀ c ∈ cps, ValidScalar c) :
    decodeUtf8 (encodeUtf8 cps) = .ok cps := by
  induction cps with
  | nil => exact dec8_nil
  | cons c cs ih =>
    rw [encodeUtf8_cons, decodeUtf8_encodeChar8 (h c (List.mem_cons_self c cs)),
      ih (fun x hx => h x (List.mem_cons_of_mem c hx))]
    rfl

/-! ### UTF-32 lemmas -/

theorem d32_nil : decodeUtf32 [] = .ok [] := rfl

theorem d32_ok {c : Nat} (h : ValidScalar c) (r : List Nat) :
    decodeUtf32 (c :: r) = (decodeUtf32 r).map (c :: ·) := by
  simp [decodeUtf32, h]

theorem d32_bad {c : Nat} (h : ¬ ValidScalar c) (r : List Nat) :
    decodeUtf32 (c :: r) = .error () := by
  simp [decodeUtf32, h]

theorem decodeUtf32_valid {l cps : List Nat} (h : decodeUtf32 l = .ok cps) :
    ∀ c ∈ cps, ValidScalar c := by
  induction l generalizing cps with
  | nil => rw [d32_nil] at h; cases h; simp
  | cons c cs ih =>
    by_cases hv : ValidScalar c
    · rw [d32_ok hv] at h
      obtain ⟨tl, htl, rfl⟩ := exceptMapOk.mp h
      intro x hx
      cases List.mem_cons.mp hx with
      | inl hxe => rw [hxe]; exact hv
      | inr hxm => exact ih htl x hxm
    · rw [d32_bad hv] at h; cases h

theorem encodeUtf32_decodeUtf32 {l cps : List Nat} (h : decodeUtf32 l = .ok cps) :
    encodeUtf32 cps = l := by
  induction l generalizing cps with
  | nil => rw [d32_nil] at h; cases h; rfl
  | cons c cs ih =>
    by_cases hv : ValidScalar c
    · rw [d32_ok hv] at h
      obtain ⟨tl, htl, rfl⟩ := exceptMapOk.mp h
      have := ih htl
      simp only [encodeUtf32] at this ⊢
      rw [this]
    · rw [d32_bad hv] at h; cases h

theorem decodeUtf32_encodeUtf32 {cps : List Nat} (h : ∀ c ∈ cps, ValidScalar c) :
    decodeUtf32 (encodeUtf32 cps) = .ok cps := by
  induction cps with
  | nil => exact d32_nil
  | cons c cs ih =>
    have hc : ValidScalar c := h c (List.mem_cons_self c cs)
    have htl := ih (fun x hx => h x (List.mem_cons_of_mem c hx))
    simp only [encodeUtf32] at htl ⊢
    rw [d32_ok hc, htl]
    rfl

/-! ### Wide-encoding dispatch lemmas -/

theorem decodeWide_valid {w : WCharWidth} {l cps : List Nat}
    (h : decodeWide w l = .ok cps) : ∀ c ∈ cps, ValidScalar c := by
  cases w
  · exact decodeUtf16_valid h
  · exact decodeUtf32_valid h

theorem encodeWide_decodeWide {w : WCharWidth} {l cps : List Nat}
    (h : decodeWide w l = .ok cps) : encodeWide w cps = l := by
  cases w
  · exact encodeUtf16_decodeUtf16 h
  · exact encodeUtf32_decodeUtf32 h

theorem decodeWide_encodeWide {w : WCharWidth} {cps : List Nat}
    (h : ∀ c ∈ cps, ValidScalar c) : decodeWide w (encodeWide w cps) = .ok cps := by
  cases w
  · exact decodeUtf16_encodeUtf16 h
  · exact decodeUtf32_encodeUtf32 h

/-! ### Zero-freedom of the transforms -/

theorem encodeChar16_ne_zero {c : Nat} (h : c ≠ 0) : 0 ∉ encodeChar16 c := by
  by_cases hb : c < 0x10000
  · rw [encodeChar16_bmp hb]; simp; omega
  · rw [encodeChar16_sup hb]; simp; omega

theorem lenient_no_zero {l : List Nat} (h : 0 ∉ l) : 0 ∉ lenientUtf8ToUtf16 l := by
  induction l using lenientUtf8ToUtf16.induct with
  | case1 => rw [len8_nil]; simp
  | case2 b rest p hs ih =>
    rw [len8_some hs]
    obtain ⟨k, hk, he, hv, hz⟩ := utf8Dec1_sound hs
    have hb : b ≠ 0 := by rintro rfl; exact h (List.mem_cons_self _ _)
    have hc : p.1 ≠ 0 := fun h0 => hb (hz h0)
    have hrest : 0 ∉ rest := fun hm => h (List.mem_cons_of_mem _ hm)
    have hp2 : 0 ∉ p.2 := by
      rw [hk] at hrest
      exact fun hm => hrest (List.mem_append_right _ hm)
    intro hm
    cases List.mem_append.mp hm with
    | inl h1 => exact encodeChar16_ne_zero hc h1
    | inr h2 => exact ih hp2 h2
  | case3 b rest hn ih =>
    rw [len8_none hn]
    have hrest : 0 ∉ rest := fun hm => h (List.mem_cons_of_mem _ hm)
    intro hm
    cases List.mem_cons.mp hm with
    | inl h1 => omega
    | inr h2 => exact ih hrest h2

theorem utf32Pieces_no_zero {l : List Nat} (h : 0 ∉ l) : 0 ∉ (utf32ToUtf16Pieces l).1 := by
  induction l with
  | nil => simp [utf32ToUtf16Pieces]
  | cons c cs ih =>
    have hc : c ≠ 0 := by rintro rfl; exact h (List.mem_cons_self _ _)
    have hcs : 0 ∉ cs := fun hm => h (List.mem_cons_of_mem _ hm)
    by_cases hv : ValidScalar c
    · simp only [utf32ToUtf16Pieces, if_pos hv]
      intro hm
      cases List.mem_append.mp hm with
      | inl h1 => exact encodeChar16_ne_zero hc h1
      | inr h2 => exact ih hcs h2
    · simp [utf32ToUtf16Pieces, hv]

/-! ### Characterizations of the raw-buffer conversions -/

theorem to_icu_raw_utf8_charact (s : List Nat) :
    to_icu_raw_utf8 s =
      if lenientUtf8ToUtf16 s = [] then UCharBuffer.null
      else ⟨true, lenientUtf8ToUtf16 s ++ [0], ((lenientUtf8ToUtf16 s).length : Int) + 1⟩ := by
  by_cases hnil : lenientUtf8ToUtf16 s = []
  · simp [to_icu_raw_utf8, uStrFromUTF8LenientMeasure, hnil]
  · have hlen : uStrFromUTF8LenientMeasure s ≠ 0 := by
      simp [uStrFromUTF8LenientMeasure, List.length_eq_zero]
      exact hnil
    have hcap : (UCharBuffer.owned (uStrFromUTF8LenientMeasure s)).capacity =
        ((lenientUtf8ToUtf16 s).length : Int) + 1 := by
      simp [UCharBuffer.owned, UCharBuffer.capacity, uStrFromUTF8LenientMeasure]
    unfold to_icu_raw_utf8
    rw [if_neg hlen]
    unfold uStrFromUTF8LenientWrite
    simp only []
    rw [hcap, if_pos (by omega)]
    simp [UCharBuffer.owned, uStrFromUTF8LenientMeasure, hnil]

theorem to_icu_raw_wide32_charact (t : List Nat) :
    to_icu_raw_wide32 t =
      if (utf32ToUtf16Pieces t).1 = [] then UCharBuffer.null
      else if (utf32ToUtf16Pieces t).2 then UCharBuffer.null
      else ⟨true, (utf32ToUtf16Pieces t).1 ++ [0],
        (((utf32ToUtf16Pieces t).1.length : Int)) + 1⟩ := by
  by_cases hnil : (utf32ToUtf16Pieces t).1 = []
  · simp [to_icu_raw_wide32, uStrFromUTF32Measure, hnil]
  · have hlen : uStrFromUTF32Measure t ≠ 0 := by
      simp [uStrFromUTF32Measure, List.length_eq_zero]
      exact hnil
    have hcap : (UCharBuffer.owned (uStrFromUTF32Measure t)).capacity =
        (((utf32ToUtf16Pieces t).1.length : Int)) + 1 := by
      simp [UCharBuffer.owned, UCharBuffer.capacity, uStrFromUTF32Measure]
    unfold to_icu_raw_wide32
    rw [if_neg hlen]
    unfold uStrFromUTF32Write
    simp only []
    by_cases herr : (utf32ToUtf16Pieces t).2
    · rw [if_neg hnil, if_pos herr]
      simp [herr]
    · rw [if_neg hnil, if_neg herr]
      simp only [herr, if_false, Bool.false_eq_true]
      rw [hcap, if_pos (by omega)]
      simp [UCharBuffer.owned, uStrFromUTF32Measure]

/-! ### Claim theorems -/

/-- C1: for every null-terminated UTF-8 byte input and every
null-terminated wide-character input, including malformed and
zero-length ones, the raw-buffer conversion `to_icu_raw` never
raises/throws — it is a total function returning a valid null-terminated
holder, degrading to the empty singleton on conversion failure. -/
theorem C1_to_icu_raw_never_fails (w : WCharWidth) (s t : List Nat)
    (hs : 0 ∉ s) (ht : 0 ∉ t) :
    NullTerminated (to_icu_raw_utf8 s).m_data ∧
    NullTerminated (to_icu_raw_wide w t).m_data := by
  constructor
  · rw [to_icu_raw_utf8_charact s]
    by_cases hnil : lenientUtf8ToUtf16 s = []
    · rw [if_pos hnil]; exact ⟨[], rfl, by simp⟩
    · rw [if_neg hnil]; exact ⟨lenientUtf8ToUtf16 s, rfl, lenient_no_zero hs⟩
  · cases w
    · exact ⟨t, rfl, ht⟩
    · rw [show to_icu_raw_wide .w4 t = to_icu_raw_wide32 t from rfl,
        to_icu_raw_wide32_charact t]
      by_cases h1 : (utf32ToUtf16Pieces t).1 = []
      · rw [if_pos h1]; exact ⟨[], rfl, by simp⟩
      · rw [if_neg h1]
        by_cases h2 : (utf32ToUtf16Pieces t).2
        · rw [if_pos h2]; exact ⟨[], rfl, by simp⟩
        · rw [if_neg h2]; exact ⟨(utf32ToUtf16Pieces t).1, rfl, utf32Pieces_no_zero ht⟩

/-- C1 witness: the malformed byte input `0x80` and the wide input `a`
both yield valid null-terminated holders. -/
theorem C1_witness :
    NullTerminated (to_icu_raw_utf8 [0x80]).m_data ∧
    NullTerminated (to_icu_raw_wide .w2 [0x61]).m_data :=
  C1_to_icu_raw_never_fails .w2 [0x80] [0x61] (by decide) (by decide)

/-- C2: the conversion `to_icu_raw` on a UTF-8 byte source measures the required UTF-16
length with the lenient transform; a zero length yields the non-owned
empty singleton; otherwise the result is the owned holder of capacity
`length + 1` filled by re-running the transform, with the terminator
appended — and the second pass at the allocated capacity cannot report
failure, so no partially converted buffer is ever returned. -/
theorem C2_to_icu_raw_utf8_algorithm (s : List Nat) :
    (uStrFromUTF8LenientMeasure s = 0 → to_icu_raw_utf8 s = UCharBuffer.null) ∧
    (uStrFromUTF8LenientMeasure s ≠ 0 →
      to_icu_raw_utf8 s =
        ⟨true, lenientUtf8ToUtf16 s ++ [0], (uStrFromUTF8LenientMeasure s : Int) + 1⟩) ∧
    uStrFromUTF8LenientWrite ((uStrFromUTF8LenientMeasure s : Int) + 1) s ≠ .error () := by
  refine ⟨?_, ?_, ?_⟩
  · intro h
    have hnil : lenientUtf8ToUtf16 s = [] := by
      rw [← List.length_eq_zero]
      exact h
    rw [to_icu_raw_utf8_charact, if_pos hnil]
  · intro h
    have hnil : lenientUtf8ToUtf16 s ≠ [] := by
      intro hn
      exact h (by simp [uStrFromUTF8LenientMeasure, hn])
    rw [to_icu_raw_utf8_charact, if_neg hnil]
    simp [uStrFromUTF8LenientMeasure]
  · unfold uStrFromUTF8LenientWrite uStrFromUTF8LenientMeasure
    simp only []
    rw [if_pos (by omega)]
    simp

/-- C2 witness: at the empty input the measure is zero and the singleton
is returned; at input `a` the measure is nonzero and the owned holder is
returned. -/
theorem C2_witness :
    (uStrFromUTF8LenientMeasure [] = 0 ∧ to_icu_raw_utf8 [] = UCharBuffer.null) ∧
    (uStrFromUTF8LenientMeasure [0x61] ≠ 0 ∧
      to_icu_raw_utf8 [0x61] =
        ⟨true, lenientUtf8ToUtf16 [0x61] ++ [0],
          (uStrFromUTF8LenientMeasure [0x61] : Int) + 1⟩) := by
  have h1 : uStrFromUTF8LenientMeasure [] = 0 := by
    unfold uStrFromUTF8LenientMeasure
    rw [len8_nil]
    rfl
  have hl : lenientUtf8ToUtf16 [0x61] = [0x61] := by
    rw [len8_some (show utf8Dec1 0x61 [] = some (0x61, []) from rfl), len8_nil]
    rfl
  have h2 : uStrFromUTF8LenientMeasure [0x61] ≠ 0 := by
    unfold uStrFromUTF8LenientMeasure
    rw [hl]
    simp
  exact ⟨⟨h1, (C2_to_icu_raw_utf8_algorithm []).1 h1⟩,
    ⟨h2, (C2_to_icu_raw_utf8_algorithm [0x61]).2.1 h2⟩⟩

/-- C3: the copying codec functions `to_utf8` and `to_wstring` delegate
to the underlying transcoder unchanged, so a transcoder failure on
malformed input is propagated to the caller with no recovery,
substitution, or repair added by this component. -/
theorem C3_codec_propagates_failure (w : WCharWidth) (s u : List Nat) :
    to_utf8 w s = utf_to_utf_char w s ∧ to_wstring w u = utf_to_utf_wchar w u ∧
    (decodeWide w s = .error () → to_utf8 w s = .error ()) ∧
    (decodeUtf8 u = .error () → to_wstring w u = .error ()) := by
  refine ⟨rfl, rfl, ?_, ?_⟩
  · intro h
    simp [to_utf8, utf_to_utf_char, h, Except.map]
  · intro h
    simp [to_wstring, utf_to_utf_wchar, h, Except.map]

/-- C3 witness: the lone high surrogate fails `to_utf8` and the lone
continuation byte `0x80` fails `to_wstring`, each propagated as the
transcoder's own failure. -/
theorem C3_witness :
    to_utf8 .w2 [0xD800] = .error () ∧ to_wstring .w2 [0x80] = .error () := by
  have h1 : decodeWide .w2 [0xD800] = .error () := d16_lone (by omega) (by omega)
  have h2 : decodeUtf8 [0x80] = .error () :=
    dec8_none (show utf8Dec1 0x80 [] = none from rfl)
  exact ⟨(C3_codec_propagates_failure .w2 [0xD800] [0x80]).2.2.1 h1,
    (C3_codec_propagates_failure .w2 [0xD800] [0x80]).2.2.2 h2⟩

/-- C4 counterexample: on a 16-bit `wchar_t` platform the empty wide
sequence yields the non-owned alias, whose `capacity()` reports the `-1`
sentinel, not `0` as the claim states. -/
theorem C4_counterexample :
    (to_icu_raw_wide .w2 []).m_data = [0] ∧
    (to_icu_raw_wide .w2 []).capacity = -1 ∧
    ¬ (to_icu_raw_wide .w2 []).capacity = 0 := by
  decide

/-- C4 amended: the empty UTF-8 string and, on a 32-bit `wchar_t`
platform, the empty wide sequence yield the singleton holder (data a
single null code unit, capacity `0`); on a 16-bit platform the empty
wide sequence still points at a single null code unit but its
`capacity()` reports the non-owned sentinel `-1`. -/
theorem C4_amended_empty_inputs :
    (to_icu_raw_utf8 []).m_data = [0] ∧ (to_icu_raw_utf8 []).capacity = 0 ∧
    (to_icu_raw_wide .w4 []).m_data = [0] ∧ (to_icu_raw_wide .w4 []).capacity = 0 ∧
    (to_icu_raw_wide .w2 []).m_data = [0] ∧ (to_icu_raw_wide .w2 []).capacity = -1 := by
  have h8 : to_icu_raw_utf8 [] = UCharBuffer.null := by
    rw [to_icu_raw_utf8_charact, len8_nil]
    rfl
  have h4 : to_icu_raw_wide .w4 [] = UCharBuffer.null := by
    rw [show to_icu_raw_wide .w4 [] = to_icu_raw_wide32 [] from rfl,
      to_icu_raw_wide32_charact]
    rfl
  rw [h8, h4]
  decide

/-- C5: move-construction resets the moved-from holder to not-owned,
null data, and zero capacity, so its destructor releases nothing, while
the new holder takes over the source's fields unchanged. -/
theorem C5_move_resets_source (b : UCharBuffer) :
    (UCharBuffer.moveConstruct b).1 = b ∧
    (UCharBuffer.moveConstruct b).2.m_owned = false ∧
    (UCharBuffer.moveConstruct b).2.m_data = [] ∧
    (UCharBuffer.moveConstruct b).2.m_capacity = 0 ∧
    (UCharBuffer.moveConstruct b).2.destructorReleases = false := by
  refine ⟨?_, rfl, rfl, rfl, rfl⟩
  cases b
  rfl

/-- C7: the conversion `to_icu_raw` on a wide source splits on the platform code-unit
width — with 16-bit `wchar_t` it returns a non-owned alias of the
source's own storage (no allocation), and with 32-bit `wchar_t` it
measures, allocates, transcodes via the UTF-32→UTF-16 primitive, and
falls back to the empty singleton on transcoding failure or zero
length. -/
theorem C7_to_icu_raw_wide_split (t : List Nat) :
    to_icu_raw_wide .w2 t = UCharBuffer.non_owned (t ++ [0]) ∧
    (to_icu_raw_wide .w2 t).m_owned = false ∧
    ((utf32ToUtf16Pieces t).2 = true → to_icu_raw_wide .w4 t = UCharBuffer.null) ∧
    ((utf32ToUtf16Pieces t).2 = false → (utf32ToUtf16Pieces t).1 = [] →
      to_icu_raw_wide .w4 t = UCharBuffer.null) ∧
    ((utf32ToUtf16Pieces t).2 = false → (utf32ToUtf16Pieces t).1 ≠ [] →
      to_icu_raw_wide .w4 t =
        ⟨true, (utf32ToUtf16Pieces t).1 ++ [0],
          ((utf32ToUtf16Pieces t).1.length : Int) + 1⟩) := by
  have hc := to_icu_raw_wide32_charact t
  refine ⟨rfl, rfl, ?_, ?_, ?_⟩
  · intro herr
    rw [show to_icu_raw_wide .w4 t = to_icu_raw_wide32 t from rfl, hc]
    by_cases h1 : (utf32ToUtf16Pieces t).1 = []
    · rw [if_pos h1]
    · rw [if_neg h1, if_pos herr]
  · intro _ h1
    rw [show to_icu_raw_wide .w4 t = to_icu_raw_wide32 t from rfl, hc, if_pos h1]
  · intro herr h1
    rw [show to_icu_raw_wide .w4 t = to_icu_raw_wide32 t from rfl, hc, if_neg h1,
      if_neg (by simp [herr])]

/-- C7 witness: the wide input `a, U+D800` has a failing UTF-32
transcode and falls back to the singleton; the valid input `a` yields
the owned transcoded holder; the 16-bit path aliases. -/
theorem C7_witness :
    to_icu_raw_wide .w2 [0x61] = UCharBuffer.non_owned [0x61, 0] ∧
    ((utf32ToUtf16Pieces [0x61, 0xD800]).2 = true ∧
      to_icu_raw_wide .w4 [0x61, 0xD800] = UCharBuffer.null) ∧
    ((utf32ToUtf16Pieces [0x61]).2 = false ∧ (utf32ToUtf16Pieces [0x61]).1 ≠ [] ∧
      to_icu_raw_wide .w4 [0x61] =
        ⟨true, (utf32ToUtf16Pieces [0x61]).1 ++ [0],
          ((utf32ToUtf16Pieces [0x61]).1.length : Int) + 1⟩) :=
  ⟨(C7_to_icu_raw_wide_split [0x61]).1,
    ⟨by decide, (C7_to_icu_raw_wide_split [0x61, 0xD800]).2.2.1 (by decide)⟩,
    ⟨by decide, by decide,
      (C7_to_icu_raw_wide_split [0x61]).2.2.2.2 (by decide) (by decide)⟩⟩

/-- C6: for every wide string valid in the platform wide encoding,
`to_wstring (to_utf8 s) = s`; conversely, for every valid UTF-8 string
(in particular free of encoded surrogate halves),
`to_utf8 (to_wstring u) = u`. -/
theorem C6_round_trip (w : WCharWidth) (s u cps cps2 : List Nat) :
    (decodeWide w s = .ok cps → (to_utf8 w s).bind (to_wstring w) = .ok s) ∧
    (decodeUtf8 u = .ok cps2 → (to_wstring w u).bind (to_utf8 w) = .ok u) := by
  constructor
  · intro h
    have hv := decodeWide_valid h
    have h8 : to_utf8 w s = .ok (encodeUtf8 cps) := by
      simp [to_utf8, utf_to_utf_char, h, Except.map]
    rw [h8]
    have hd : decodeUtf8 (encodeUtf8 cps) = .ok cps := decodeUtf8_encodeUtf8 hv
    simp [Except.bind, to_wstring, utf_to_utf_wchar, hd, Except.map,
      encodeWide_decodeWide h]
  · intro h
    have hv := decodeUtf8_valid h
    have hw : to_wstring w u = .ok (encodeWide w cps2) := by
      simp [to_wstring, utf_to_utf_wchar, h, Except.map]
    rw [hw]
    have hd : decodeWide w (encodeWide w cps2) = .ok cps2 := decodeWide_encodeWide hv
    simp [Except.bind, to_utf8, utf_to_utf_char, hd, Except.map,
      encodeUtf8_decodeUtf8 h]

/-- C6 witness: the wide string `café` (UTF-16, 4 code units) and its
UTF-8 form (5 bytes) each round-trip exactly. -/
theorem C6_witness :
    (to_utf8 .w2 [0x63, 0x61, 0x66, 0xE9]).bind (to_wstring .w2) =
      .ok [0x63, 0x61, 0x66, 0xE9] ∧
    (to_wstring .w2 [0x63, 0x61, 0x66, 0xC3, 0xA9]).bind (to_utf8 .w2) =
      .ok [0x63, 0x61, 0x66, 0xC3, 0xA9] := by
  have h1 : decodeWide .w2 [0x63, 0x61, 0x66, 0xE9] = .ok [0x63, 0x61, 0x66, 0xE9] := rfl
  have e2 : decodeUtf8 [0xC3, 0xA9] = .ok [0xE9] := by
    rw [dec8_some (show utf8Dec1 0xC3 [0xA9] = some (0xE9, []) from rfl), dec8_nil]
    rfl
  have e3 : decodeUtf8 [0x66, 0xC3, 0xA9] = .ok [0x66, 0xE9] := by
    rw [dec8_some (show utf8Dec1 0x66 [0xC3, 0xA9] = some (0x66, [0xC3, 0xA9]) from rfl), e2]
    rfl
  have e4 : decodeUtf8 [0x61, 0x66, 0xC3, 0xA9] = .ok [0x61, 0x66, 0xE9] := by
    rw [dec8_some
      (show utf8Dec1 0x61 [0x66, 0xC3, 0xA9] = some (0x61, [0x66, 0xC3, 0xA9]) from rfl), e3]
    rfl
  have h2 : decodeUtf8 [0x63, 0x61, 0x66, 0xC3, 0xA9] = .ok [0x63, 0x61, 0x66, 0xE9] := by
    rw [dec8_some (show utf8Dec1 0x63 [0x61, 0x66, 0xC3, 0xA9] =
      some (0x63, [0x61, 0x66, 0xC3, 0xA9]) from rfl), e4]
    rfl
  exact ⟨(C6_round_trip .w2 [0x63, 0x61, 0x66, 0xE9] [0x63, 0x61, 0x66, 0xC3, 0xA9]
      [0x63, 0x61, 0x66, 0xE9] [0x63, 0x61, 0x66, 0xE9]).1 h1,
    (C6_round_trip .w2 [0x63, 0x61, 0x66, 0xE9] [0x63, 0x61, 0x66, 0xC3, 0xA9]
      [0x63, 0x61, 0x66, 0xE9] [0x63, 0x61, 0x66, 0xE9]).2 h2⟩

/-- C8: on a 16-bit `wchar_t` platform, the zero-copy view's code-unit
sequence (`to_icu` aliasing path, and the `to_icu_raw` alias up to its
terminator) equals what the copying wide-to-UTF-16 conversion produces
for the same input. -/
theorem C8_zero_copy_equiv (s cps : List Nat) (h : decodeUtf16 s = .ok cps) :
    wideToUtf16Copy .w2 s = .ok (to_icu_wide16 s) ∧
    (to_icu_raw_wide .w2 s).m_data = to_icu_wide16 s ++ [0] := by
  constructor
  · simp [wideToUtf16Copy, decodeWide, h, Except.map, to_icu_wide16,
      encodeUtf16_decodeUtf16 h]
  · rfl

/-- C8 witness: for the surrogate-pair input (U+1F600 as two units) the
copying conversion reproduces exactly the aliased code units. -/
theorem C8_witness :
    wideToUtf16Copy .w2 [0xD83D, 0xDE00] = .ok (to_icu_wide16 [0xD83D, 0xDE00]) ∧
    (to_icu_raw_wide .w2 [0xD83D, 0xDE00]).m_data =
      to_icu_wide16 [0xD83D, 0xDE00] ++ [0] :=
  C8_zero_copy_equiv [0xD83D, 0xDE00] [0x1F600] rfl

/-- C9: the accessor `capacity()` returns the stored field unmapped — `owned(n)`
reports `n + 1`, `non_owned` reports the `-1` sentinel (not `0`, despite
the accessor's comment), `null()` reports `0`, and a moved-from holder
reports `0`. -/
theorem C9_capacity_raw_field (n : Nat) (d : List Nat) (b : UCharBuffer) :
    UCharBuffer.capacity b = b.m_capacity ∧
    (UCharBuffer.owned n).capacity = (n : Int) + 1 ∧
    (UCharBuffer.non_owned d).capacity = -1 ∧
    UCharBuffer.null.capacity = 0 ∧
    (UCharBuffer.moveConstruct b).2.capacity = 0 :=
  ⟨rfl, rfl, rfl, rfl, rfl⟩

/-- C10: the `unsigned char*` overload of `to_utf8` returns its bytes
verbatim with no transcoding or validation — malformed UTF-8 such as
`0x80` passes through unchanged — unlike the wide-character overloads,
which fail on malformed input. -/
theorem C10_uchar_overload_verbatim (s : List Nat) :
    to_utf8_uchar s = s ∧ to_utf8_uchar [0x80] = [0x80] ∧
    (∀ w : WCharWidth, to_utf8 w [0xD800] = .error ()) := by
  refine ⟨rfl, rfl, fun w => ?_⟩
  cases w
  · have h : decodeWide .w2 [0xD800] = .error () := d16_lone (by omega) (by omega)
    simp [to_utf8, utf_to_utf_char, h, Except.map]
  · have h : decodeWide .w4 [0xD800] = .error () := rfl
    simp [to_utf8, utf_to_utf_char, h, Except.map]

end StrHelpers
